import Mathlib

/-
Verification development for the cursor/batching core of the listIndexes
command (src/mongo/db/commands/list_indexes.cpp).

The embedding follows the source file.  Components of the wider codebase that
this file uses but whose sources are not part of this repository snapshot
(FindCommon::haveSpaceForNext, the QueuedDataStage/PlanExecutor pipeline,
the MONGO_WRITE_CONFLICT_RETRY_LOOP macros, CursorManager) are modelled from
the specification, and are marked as such in their doc comments.
-/

set_option autoImplicit false

namespace ListIndexes

variable {α : Type}

/-- Modelled from the spec: the execution pipeline built in
`CmdListIndexes::run` from a `QueuedDataStage` wrapped in a `PlanExecutor`
(both external to this snapshot).  `queue` is the ordered sequence of records
still to be replayed; `stash` is the single-slot redelivery buffer filled by
`PlanExecutor::enqueue` (spec 4.2-4.3). -/
structure Pipeline (α : Type) where
  stash : Option α
  queue : List α
deriving DecidableEq

/-- All records still inside the pipeline, redelivered record first. -/
def Pipeline.contents (p : Pipeline α) : List α :=
  p.stash.toList ++ p.queue

/-- `PlanExecutor::isEOF`: no stashed record and the source is exhausted. -/
def Pipeline.isEOF (p : Pipeline α) : Bool :=
  p.stash.isNone && p.queue.isEmpty

/-- One pull (`exec->getNext`): the redelivery slot is emptied first, then the
queue advances; `none` reports end-of-data (`PlanExecutor::IS_EOF`). -/
def Pipeline.getNext : Pipeline α → Option α × Pipeline α
  | ⟨some r, q⟩ => (some r, ⟨none, q⟩)
  | ⟨none, []⟩ => (none, ⟨none, []⟩)
  | ⟨none, r :: q⟩ => (some r, ⟨none, q⟩)

/-- `PlanExecutor::enqueue`: push a record back into the redelivery slot. -/
def Pipeline.enqueue (p : Pipeline α) (d : α) : Pipeline α :=
  { p with stash := some d }

/-- Modelled from the spec: `FindCommon::haveSpaceForNext` (find_common.cpp is
external to this snapshot).  The first record is always accepted; afterwards a
record fits only if it keeps the buffered byte count within the byte budget,
which the spec (4.4, 8) exposes as the parameter `maxBytes`. -/
def haveSpaceForNext (objsize : α → Nat) (maxBytes : Nat) (next : α)
    (numDocs bytesBuffered : Nat) : Bool :=
  numDocs == 0 || decide (bytesBuffered + objsize next ≤ maxBytes)

/-- The first-batch loop of `CmdListIndexes::run` (list_indexes.cpp:207-222),
written as recursion over the records still queued.  Each iteration mirrors
the source: stop when `objCount` reaches `batchSize`; stop at end-of-data;
on a failed `haveSpaceForNext` check redeliver the pulled record with
`exec->enqueue` and stop; otherwise append it to the batch.  Returns the
accumulated batch and the remaining pipeline. -/
def assembleLoop (objsize : α → Nat) (batchSize maxBytes : Nat) :
    List α → Nat → Nat → List α × Pipeline α
  | [], _, _ => ([], ⟨none, []⟩)
  | next :: rest, objCount, bytesBuffered =>
    if objCount < batchSize then
      if haveSpaceForNext objsize maxBytes next objCount bytesBuffered then
        (next :: (assembleLoop objsize batchSize maxBytes rest (objCount + 1)
            (bytesBuffered + objsize next)).1,
          (assembleLoop objsize batchSize maxBytes rest (objCount + 1)
            (bytesBuffered + objsize next)).2)
      else
        ([], Pipeline.enqueue ⟨none, rest⟩ next)
    else
      ([], ⟨none, next :: rest⟩)

/-- The Batch Assembler: run the first-batch loop on a pipeline.  A stashed
(previously redelivered) record is pulled first; it is pulled at
`objCount = 0`, so the `haveSpaceForNext` check accepts it unconditionally and
the loop continues over the queue with the count and byte tallies updated. -/
def assembleBatch (objsize : α → Nat) (batchSize maxBytes : Nat)
    (p : Pipeline α) : List α × Pipeline α :=
  match p.stash with
  | none => assembleLoop objsize batchSize maxBytes p.queue 0 0
  | some r =>
    if 0 < batchSize then
      (r :: (assembleLoop objsize batchSize maxBytes p.queue 1 (objsize r)).1,
        (assembleLoop objsize batchSize maxBytes p.queue 1 (objsize r)).2)
    else
      ([], p)

/-- Repeatedly run the Batch Assembler until the pipeline is exhausted (or the
round budget `fuel` runs out), collecting the batches. -/
def drainAll (objsize : α → Nat) (batchSize maxBytes : Nat) :
    Nat → Pipeline α → List (List α) × Pipeline α
  | 0, p => ([], p)
  | fuel + 1, p =>
    if p.isEOF then ([], p)
    else
      ((assembleBatch objsize batchSize maxBytes p).1 ::
          (drainAll objsize batchSize maxBytes fuel
            (assembleBatch objsize batchSize maxBytes p).2).1,
        (drainAll objsize batchSize maxBytes fuel
          (assembleBatch objsize batchSize maxBytes p).2).2)

lemma Pipeline.isEOF_iff (p : Pipeline α) :
    p.isEOF = true ↔ p.contents = [] := by
  cases p with
  | mk s q => cases s <;> cases q <;>
      simp [Pipeline.isEOF, Pipeline.contents, List.isEmpty]

lemma haveSpaceForNext_first (objsize : α → Nat) (maxBytes : Nat) (next : α)
    (bytesBuffered : Nat) :
    haveSpaceForNext objsize maxBytes next 0 bytesBuffered = true := by
  simp [haveSpaceForNext]

/-- Conservation: the batch followed by what is left in the pipeline is
exactly the queue the loop started from. -/
lemma assembleLoop_contents (objsize : α → Nat) (batchSize maxBytes : Nat) :
    ∀ (q : List α) (c b : Nat),
      (assembleLoop objsize batchSize maxBytes q c b).1 ++
        (assembleLoop objsize batchSize maxBytes q c b).2.contents = q := by
  intro q
  induction q with
  | nil =>
    intro c b
    simp [assembleLoop, Pipeline.contents]
  | cons next rest ih =>
    intro c b
    by_cases h1 : c < batchSize
    · cases hsp : haveSpaceForNext objsize maxBytes next c b with
      | true =>
        simpa [assembleLoop, h1, hsp] using ih (c + 1) (b + objsize next)
      | false =>
        simp [assembleLoop, h1, hsp, Pipeline.enqueue, Pipeline.contents]
    · simp [assembleLoop, h1, Pipeline.contents]

/-- Byte budget: once at least one record is in the batch, everything the loop
still appends keeps the total within `maxBytes`. -/
lemma assembleLoop_size (objsize : α → Nat) (batchSize maxBytes : Nat) :
    ∀ (q : List α) (c b : Nat), 1 ≤ c →
      ((assembleLoop objsize batchSize maxBytes q c b).1.map objsize).sum + b
          ≤ maxBytes ∨
      (assembleLoop objsize batchSize maxBytes q c b).1 = [] := by
  intro q
  induction q with
  | nil =>
    intro c b _
    right
    simp [assembleLoop]
  | cons next rest ih =>
    intro c b hc
    by_cases h1 : c < batchSize
    · cases hsp : haveSpaceForNext objsize maxBytes next c b with
      | true =>
        left
        have hspace : b + objsize next ≤ maxBytes := by
          have h' := hsp
          simp [haveSpaceForNext] at h'
          rcases h' with h' | h'
          · omega
          · exact h'
        rcases ih (c + 1) (b + objsize next) (by omega) with h' | h'
        · simp only [assembleLoop, h1, if_true, hsp, if_pos, List.map_cons,
            List.sum_cons]
          omega
        · simp only [assembleLoop, h1, if_true, hsp, if_pos, h',
            List.map_cons, List.map_nil, List.sum_cons, List.sum_nil]
          omega
      | false =>
        right
        simp [assembleLoop, h1, hsp]
    · right
      simp [assembleLoop, h1]

/-- Count budget: the loop never appends past `batchSize`. -/
lemma assembleLoop_count (objsize : α → Nat) (batchSize maxBytes : Nat) :
    ∀ (q : List α) (c b : Nat),
      c + (assembleLoop objsize batchSize maxBytes q c b).1.length ≤ batchSize ∨
      (assembleLoop objsize batchSize maxBytes q c b).1 = [] := by
  intro q
  induction q with
  | nil =>
    intro c b
    right
    simp [assembleLoop]
  | cons next rest ih =>
    intro c b
    by_cases h1 : c < batchSize
    · cases hsp : haveSpaceForNext objsize maxBytes next c b with
      | true =>
        left
        rcases ih (c + 1) (b + objsize next) with h' | h'
        · simp only [assembleLoop, h1, if_true, hsp, if_pos, List.length_cons]
          omega
        · simp only [assembleLoop, h1, if_true, hsp, if_pos, h',
            List.length_cons, List.length_nil]
          omega
      | false =>
        right
        simp [assembleLoop, h1, hsp]
    · right
      simp [assembleLoop, h1]

/-- Whenever the loop ends with a stashed record, that record was pulled and
then failed the `haveSpaceForNext` check against the batch built so far. -/
lemma assembleLoop_stash (objsize : α → Nat) (batchSize maxBytes : Nat) :
    ∀ (q : List α) (c b : Nat) (r : α),
      (assembleLoop objsize batchSize maxBytes q c b).2.stash = some r →
      haveSpaceForNext objsize maxBytes r
        (c + (assembleLoop objsize batchSize maxBytes q c b).1.length)
        (b + ((assembleLoop objsize batchSize maxBytes q c b).1.map
          objsize).sum) = false := by
  intro q
  induction q with
  | nil =>
    intro c b r h
    simp [assembleLoop] at h
  | cons next rest ih =>
    intro c b r h
    by_cases h1 : c < batchSize
    · cases hsp : haveSpaceForNext objsize maxBytes next c b with
      | true =>
        simp only [assembleLoop, h1, if_true, hsp, if_pos] at h ⊢
        have := ih (c + 1) (b + objsize next) r h
        simpa [Nat.add_assoc, Nat.add_comm, Nat.add_left_comm] using this
      | false =>
        simp only [assembleLoop, h1, if_true, hsp] at h ⊢
        simp [Pipeline.enqueue] at h
        subst h
        simpa using hsp
    · simp [assembleLoop, h1] at h

/-- Conservation for a full Batch Assembler run. -/
lemma assembleBatch_contents (objsize : α → Nat) (batchSize maxBytes : Nat)
    (p : Pipeline α) :
    (assembleBatch objsize batchSize maxBytes p).1 ++
      (assembleBatch objsize batchSize maxBytes p).2.contents = p.contents := by
  cases p with
  | mk s q =>
    cases s with
    | none =>
      simpa [assembleBatch, Pipeline.contents] using
        assembleLoop_contents objsize batchSize maxBytes q 0 0
    | some r =>
      by_cases hbs : 0 < batchSize
      · simpa [assembleBatch, hbs, Pipeline.contents] using
          assembleLoop_contents objsize batchSize maxBytes q 1 (objsize r)
      · simp [assembleBatch, hbs]

/-- A batch is within the byte budget unless it is a single record. -/
lemma assembleBatch_size (objsize : α → Nat) (batchSize maxBytes : Nat)
    (p : Pipeline α) :
    ((assembleBatch objsize batchSize maxBytes p).1.map objsize).sum ≤ maxBytes ∨
    (assembleBatch objsize batchSize maxBytes p).1.length = 1 := by
  cases p with
  | mk s q =>
    cases s with
    | none =>
      cases q with
      | nil => left; simp [assembleBatch, assembleLoop]
      | cons next rest =>
        by_cases hbs : 0 < batchSize
        · have hfirst := haveSpaceForNext_first objsize maxBytes next 0
          rcases assembleLoop_size objsize batchSize maxBytes rest 1
              (objsize next) (by omega) with h' | h'
          · left
            simp only [assembleBatch, assembleLoop, hbs, if_true, hfirst,
              if_pos, List.map_cons, List.sum_cons, Nat.zero_add]
            omega
          · right
            simp [assembleBatch, assembleLoop, hbs, hfirst, h']
        · left
          simp [assembleBatch, assembleLoop, hbs]
    | some r =>
      by_cases hbs : 0 < batchSize
      · rcases assembleLoop_size objsize batchSize maxBytes q 1 (objsize r)
            (by omega) with h' | h'
        · left
          simp only [assembleBatch, hbs, if_pos, List.map_cons, List.sum_cons]
          omega
        · right
          simp [assembleBatch, hbs, h']
      · left
        simp [assembleBatch, hbs]

/-- A batch never holds more than `batchSize` records. -/
lemma assembleBatch_count (objsize : α → Nat) (batchSize maxBytes : Nat)
    (p : Pipeline α) :
    (assembleBatch objsize batchSize maxBytes p).1.length ≤ batchSize := by
  cases p with
  | mk s q =>
    cases s with
    | none =>
      rcases assembleLoop_count objsize batchSize maxBytes q 0 0 with h' | h'
      · simp only [assembleBatch]
        omega
      · simp [assembleBatch, h']
    | some r =>
      by_cases hbs : 0 < batchSize
      · rcases assembleLoop_count objsize batchSize maxBytes q 1 (objsize r)
            with h' | h'
        · simp only [assembleBatch, hbs, if_pos, List.length_cons]
          omega
        · simp only [assembleBatch, hbs, if_pos, h', List.length_cons,
            List.length_nil]
          omega
      · simp [assembleBatch, hbs]

/-- Progress: while data remains and the count budget is positive, a batch is
never empty. -/
lemma assembleBatch_progress (objsize : α → Nat) (batchSize maxBytes : Nat)
    (p : Pipeline α) (h1 : p.isEOF = false) (h2 : 1 ≤ batchSize) :
    (assembleBatch objsize batchSize maxBytes p).1 ≠ [] := by
  cases p with
  | mk s q =>
    cases s with
    | none =>
      cases q with
      | nil => simp [Pipeline.isEOF, List.isEmpty] at h1
      | cons next rest =>
        have hfirst := haveSpaceForNext_first objsize maxBytes next 0
        simp [assembleBatch, assembleLoop, h2, hfirst, show 0 < batchSize by
          omega]
    | some r =>
      simp [assembleBatch, show 0 < batchSize by omega]

/-- The first record of a batch is the first record pulled. -/
lemma assembleBatch_head (objsize : α → Nat) (batchSize maxBytes : Nat)
    (p : Pipeline α) (h1 : p.isEOF = false) (h2 : 1 ≤ batchSize) :
    (assembleBatch objsize batchSize maxBytes p).1.head? = (p.getNext).1 := by
  cases p with
  | mk s q =>
    cases s with
    | none =>
      cases q with
      | nil => simp [Pipeline.isEOF, List.isEmpty] at h1
      | cons next rest =>
        have hfirst := haveSpaceForNext_first objsize maxBytes next 0
        simp [assembleBatch, assembleLoop, Pipeline.getNext, hfirst,
          show 0 < batchSize by omega]
    | some r =>
      simp [assembleBatch, Pipeline.getNext, show 0 < batchSize by omega]

/-- A record stashed by a Batch Assembler run is one that failed the
`haveSpaceForNext` check against the batch that was returned. -/
lemma assembleBatch_stash_fail (objsize : α → Nat) (batchSize maxBytes : Nat)
    (p : Pipeline α) (r : α) (hbs : 1 ≤ batchSize)
    (h : (assembleBatch objsize batchSize maxBytes p).2.stash = some r) :
    haveSpaceForNext objsize maxBytes r
      (assembleBatch objsize batchSize maxBytes p).1.length
      (((assembleBatch objsize batchSize maxBytes p).1.map objsize).sum) =
      false := by
  cases p with
  | mk s q =>
    cases s with
    | none =>
      simp only [assembleBatch] at h ⊢
      have := assembleLoop_stash objsize batchSize maxBytes q 0 0 r h
      simpa using this
    | some r0 =>
      have hpos : 0 < batchSize := by omega
      simp only [assembleBatch, hpos, if_pos] at h ⊢
      have := assembleLoop_stash objsize batchSize maxBytes q 1 (objsize r0) r h
      simpa [Nat.add_comm, Nat.add_assoc, Nat.add_left_comm] using this

/-- Draining to exhaustion: with fuel covering the records present, the
pipeline ends exhausted, the batches concatenate to exactly the pipeline
contents, and every batch respects the byte budget except possibly a batch
that is a single record. -/
lemma drainAll_spec (objsize : α → Nat) (batchSize maxBytes : Nat)
    (hbs : 1 ≤ batchSize) :
    ∀ (fuel : Nat) (p : Pipeline α), p.contents.length ≤ fuel →
      (drainAll objsize batchSize maxBytes fuel p).2.isEOF = true ∧
      ((drainAll objsize batchSize maxBytes fuel p).1).flatten = p.contents ∧
      ∀ b ∈ (drainAll objsize batchSize maxBytes fuel p).1,
        ((b.map objsize).sum ≤ maxBytes ∨ b.length = 1) := by
  intro fuel
  induction fuel with
  | zero =>
    intro p hp
    have hnil : p.contents = [] := by
      cases hcp : p.contents with
      | nil => rfl
      | cons x xs => rw [hcp] at hp; simp at hp
    refine ⟨?_, ?_, ?_⟩
    · rw [Pipeline.isEOF_iff]
      exact hnil
    · simpa [drainAll] using hnil.symm
    · simp [drainAll]
  | succ n ih =>
    intro p hp
    by_cases heof : p.isEOF = true
    · have hnil : p.contents = [] := (Pipeline.isEOF_iff p).mp heof
      refine ⟨?_, ?_, ?_⟩
      · simp [drainAll, heof]
      · simpa [drainAll, heof] using hnil.symm
      · simp [drainAll, heof]
    · have heof' : p.isEOF = false := by
        cases hb : p.isEOF
        · rfl
        · exact absurd hb heof
      have hcons := assembleBatch_contents objsize batchSize maxBytes p
      have hne := assembleBatch_progress objsize batchSize maxBytes p heof' hbs
      have hlen : (assembleBatch objsize batchSize maxBytes p).2.contents.length
          ≤ n := by
        have := congrArg List.length hcons
        simp only [List.length_append] at this
        have h1 : 1 ≤ (assembleBatch objsize batchSize maxBytes p).1.length := by
          cases hb : (assembleBatch objsize batchSize maxBytes p).1 with
          | nil => exact absurd hb hne
          | cons x xs => simp
        omega
      obtain ⟨ha, hb, hc⟩ := ih (assembleBatch objsize batchSize maxBytes p).2 hlen
      refine ⟨?_, ?_, ?_⟩
      · simpa [drainAll, heof'] using ha
      · simp only [drainAll, heof', Bool.false_eq_true, if_neg,
          not_false_iff, List.flatten_cons]
        rw [hb]
        exact hcons
      · intro b hbmem
        simp only [drainAll, heof', Bool.false_eq_true, if_neg,
          not_false_iff, List.mem_cons] at hbmem
        rcases hbmem with hbmem | hbmem
        · subst hbmem
          exact assembleBatch_size objsize batchSize maxBytes p
        · exact hc b hbmem

/-- C1: for every loaded sequence of records and every item-count budget of at
least one and byte budget, repeatedly running the Batch Assembler until the
pipeline is exhausted exhausts it, the concatenation of the produced batches
is exactly the original records in their original order (no loss, duplication
or reordering), and each batch stays at or below the byte budget except
possibly when the batch is just its very first record. -/
theorem batchAssembler_drain_correct (objsize : α → Nat)
    (batchSize maxBytes : Nat) (recs : List α) (h : 1 ≤ batchSize) :
    (drainAll objsize batchSize maxBytes recs.length ⟨none, recs⟩).2.isEOF =
      true ∧
    ((drainAll objsize batchSize maxBytes recs.length
      ⟨none, recs⟩).1).flatten = recs ∧
    ∀ b ∈ (drainAll objsize batchSize maxBytes recs.length ⟨none, recs⟩).1,
      ((b.map objsize).sum ≤ maxBytes ∨ b.length = 1) := by
  have h' := drainAll_spec objsize batchSize maxBytes h recs.length
    ⟨none, recs⟩ (by simp [Pipeline.contents])
  simpa [Pipeline.contents] using h'

/-- Witness for C1: five records of sizes 3, 4, 5 with item budget 2 and byte
budget 10. -/
theorem batchAssembler_drain_correct_witness :
    1 ≤ 2 ∧
    ((drainAll (fun n : Nat => n) 2 10 [3, 4, 5].length
        ⟨none, [3, 4, 5]⟩).2.isEOF = true ∧
      ((drainAll (fun n : Nat => n) 2 10 [3, 4, 5].length
        ⟨none, [3, 4, 5]⟩).1).flatten = [3, 4, 5] ∧
      ∀ b ∈ (drainAll (fun n : Nat => n) 2 10 [3, 4, 5].length
          ⟨none, [3, 4, 5]⟩).1,
        ((b.map (fun n : Nat => n)).sum ≤ 10 ∨ b.length = 1)) :=
  ⟨by decide,
    batchAssembler_drain_correct (fun n : Nat => n) 2 10 [3, 4, 5] (by decide)⟩

/-- C2: in one Batch Assembler run over a non-exhausted pipeline with a
positive item budget, the first pulled record is always the head of the batch
(even if it alone exceeds the byte budget, since no size hypothesis is made),
the batch is never empty, and whenever a record ends up in the redelivery
slot it is exactly the record that failed the `haveSpaceForNext` budget check
(necessarily not the first), it was redelivered rather than discarded, and
the pipeline is positioned so that the next pull returns it. -/
theorem batchAssembler_first_and_redeliver (objsize : α → Nat)
    (batchSize maxBytes : Nat) (p : Pipeline α)
    (h1 : p.isEOF = false) (h2 : 1 ≤ batchSize) :
    (assembleBatch objsize batchSize maxBytes p).1.head? = (p.getNext).1 ∧
    (assembleBatch objsize batchSize maxBytes p).1 ≠ [] ∧
    ∀ r, (assembleBatch objsize batchSize maxBytes p).2.stash = some r →
      (p.contents = (assembleBatch objsize batchSize maxBytes p).1 ++
          r :: (assembleBatch objsize batchSize maxBytes p).2.queue ∧
        ((assembleBatch objsize batchSize maxBytes p).2.getNext).1 = some r ∧
        haveSpaceForNext objsize maxBytes r
          (assembleBatch objsize batchSize maxBytes p).1.length
          (((assembleBatch objsize batchSize maxBytes p).1.map objsize).sum)
          = false ∧
        1 ≤ (assembleBatch objsize batchSize maxBytes p).1.length) := by
  refine ⟨assembleBatch_head objsize batchSize maxBytes p h1 h2,
    assembleBatch_progress objsize batchSize maxBytes p h1 h2, ?_⟩
  intro r hstash
  have hfail := assembleBatch_stash_fail objsize batchSize maxBytes p r h2
    hstash
  have hcons := assembleBatch_contents objsize batchSize maxBytes p
  refine ⟨?_, ?_, hfail, ?_⟩
  · rw [← hcons]
    cases hq : (assembleBatch objsize batchSize maxBytes p).2 with
    | mk s q =>
      rw [hq] at hstash
      simp at hstash
      simp [Pipeline.contents, hstash, hq]
  · cases hq : (assembleBatch objsize batchSize maxBytes p).2 with
    | mk s q =>
      rw [hq] at hstash
      simp at hstash
      simp [Pipeline.getNext, hstash, hq]
  · by_contra hlen
    have h0 : (assembleBatch objsize batchSize maxBytes p).1.length = 0 := by
      omega
    rw [h0] at hfail
    rw [haveSpaceForNext_first] at hfail
    exact absurd hfail (by simp)

/-- Witness for C2: two records of sizes 5 and 9 with byte budget 3; the first
record exceeds the budget alone, yet is appended, and the second is
redelivered. -/
theorem batchAssembler_first_and_redeliver_witness :
    (Pipeline.mk (none : Option Nat) [5, 9]).isEOF = false ∧ 1 ≤ 5 ∧
    ((assembleBatch (fun n : Nat => n) 5 3 ⟨none, [5, 9]⟩).1.head? =
        ((Pipeline.mk (none : Option Nat) [5, 9]).getNext).1 ∧
      (assembleBatch (fun n : Nat => n) 5 3 ⟨none, [5, 9]⟩).1 ≠ [] ∧
      ∀ r, (assembleBatch (fun n : Nat => n) 5 3
          ⟨none, [5, 9]⟩).2.stash = some r →
        ((Pipeline.mk (none : Option Nat) [5, 9]).contents =
            (assembleBatch (fun n : Nat => n) 5 3 ⟨none, [5, 9]⟩).1 ++
              r :: (assembleBatch (fun n : Nat => n) 5 3
                ⟨none, [5, 9]⟩).2.queue ∧
          ((assembleBatch (fun n : Nat => n) 5 3
            ⟨none, [5, 9]⟩).2.getNext).1 = some r ∧
          haveSpaceForNext (fun n : Nat => n) 3 r
            (assembleBatch (fun n : Nat => n) 5 3 ⟨none, [5, 9]⟩).1.length
            (((assembleBatch (fun n : Nat => n) 5 3
              ⟨none, [5, 9]⟩).1.map (fun n : Nat => n)).sum) = false ∧
          1 ≤ (assembleBatch (fun n : Nat => n) 5 3 ⟨none, [5, 9]⟩).1.length)) :=
  ⟨by decide, by decide,
    batchAssembler_first_and_redeliver (fun n : Nat => n) 5 3 ⟨none, [5, 9]⟩
      (by decide) (by decide)⟩

/-- `PlanExecutor` lifecycle state (plan_executor.h is external to this
snapshot; states follow spec 4.3: active / suspended-detached, with `saved`
the intermediate state after `saveState`). -/
inductive ExecState where
  | usable
  | saved
  | detached
deriving DecidableEq

/-- A plan executor: lifecycle state plus the pipeline it owns. -/
structure Exec (α : Type) where
  state : ExecState
  pipe : Pipeline α
deriving DecidableEq

/-- `PlanExecutor::isEOF`, delegated to the pipeline. -/
def Exec.isEOF (e : Exec α) : Bool :=
  e.pipe.isEOF

/-- The first-batch loop runs only on a usable (attached) executor; pulling in
any other state is a programming error, modelled as `none`. -/
def Exec.getBatch (objsize : α → Nat) (batchSize maxBytes : Nat)
    (e : Exec α) : Option (List α × Exec α) :=
  if e.state = ExecState.usable then
    some ((assembleBatch objsize batchSize maxBytes e.pipe).1,
      ⟨ExecState.usable, (assembleBatch objsize batchSize maxBytes e.pipe).2⟩)
  else
    none

/-- `exec->saveState()`: suspend; a programming error unless currently
usable. -/
def Exec.saveState (e : Exec α) : Option (Exec α) :=
  if e.state = ExecState.usable then
    some { e with state := ExecState.saved }
  else
    none

/-- `exec->detachFromOperationContext()`: a programming error unless the
executor was saved first; afterwards the executor is suspended-detached. -/
def Exec.detachFromOperationContext (e : Exec α) : Option (Exec α) :=
  if e.state = ExecState.saved then
    some { e with state := ExecState.detached }
  else
    none

/-- A parked cursor: the executor it owns plus the pin flag (spec 3; the
captured security/consistency context is irrelevant to the claims and
omitted). -/
structure CursorEntry (α : Type) where
  exec : Exec α
  pinned : Bool
deriving DecidableEq

/-- Modelled from the spec: the process-wide cursor registry
(`CursorManager`, external to this snapshot), a table from 64-bit ids to
parked cursors (spec 4.5). -/
structure Registry (α : Type) where
  entries : List (Nat × CursorEntry α)
deriving DecidableEq

/-- First entry stored under `id`, if any. -/
def lookupEntry : List (Nat × CursorEntry α) → Nat → Option (CursorEntry α)
  | [], _ => none
  | (k, e) :: rest, id => if k = id then some e else lookupEntry rest id

def Registry.lookup (reg : Registry α) (id : Nat) : Option (CursorEntry α) :=
  lookupEntry reg.entries id

/-- A fresh nonzero identifier not currently in use: one more than the
largest id stored. -/
def Registry.freshId (reg : Registry α) : Nat :=
  (reg.entries.map Prod.fst).foldr max 0 + 1

/-- Modelled from the spec: `registerCursor` (spec 4.5) requires a
suspended-detached pipeline — anything else is a caller contract breach
(`none`) — assigns a fresh nonzero id and stores the entry, unpinned. -/
def Registry.registerCursor (reg : Registry α) (e : Exec α) :
    Option (Nat × Registry α) :=
  if e.state = ExecState.detached then
    some (reg.freshId, ⟨(reg.freshId, ⟨e, false⟩) :: reg.entries⟩)
  else
    none

/-- How `CursorRequest::parseCommandCursorOptions` can see the request:
no cursor/batchSize option, a valid batch size, or a malformed option
(cursor_request.cpp is external to this snapshot). -/
inductive BatchSizeReq where
  | unspecified
  | given (n : Nat)
  | malformed
deriving DecidableEq

/-- Command-level errors surfaced by `appendCommandStatus`. -/
inductive CmdError where
  | parseError
  | namespaceNotFound (msg : String)
deriving DecidableEq

/-- `defaultBatchSize = std::numeric_limits<long long>::max()`
(list_indexes.cpp:125). -/
def defaultBatchSize : Nat := 2 ^ 63 - 1

/-- Parsing the cursor options (list_indexes.cpp:127-131): an absent option
yields the default batch size, a present valid one its value, a malformed one
an error. -/
def parseCommandCursorOptions : BatchSizeReq → Except CmdError Nat
  | BatchSizeReq.unspecified => Except.ok defaultBatchSize
  | BatchSizeReq.given n => Except.ok n
  | BatchSizeReq.malformed => Except.error CmdError.parseError

/-- What `CmdListIndexes::run` reports back through
`appendCursorResponseObject`: the first batch and the cursor id (0 meaning
fully delivered). -/
structure CmdResult (α : Type) where
  firstBatch : List α
  cursorId : Nat
deriving DecidableEq

/-- `CmdListIndexes::run` (list_indexes.cpp:119-241) from the point where the
documents for the pipeline are materialized: parse the cursor options, check
database and collection existence, load the documents into a fresh usable
executor, assemble the first batch, and either report cursor id 0 (pipeline
exhausted) or save, detach and register the pipeline and report the assigned
id.  `none` models a fatal `invariant`/state-machine violation (never an
ordinary outcome); the outer `Option` value pairs the command outcome with
the resulting registry. -/
def listIndexesRun (objsize : α → Nat) (maxBytes : Nat)
    (dbExists collExists : Bool) (req : BatchSizeReq) (docs : List α)
    (reg : Registry α) :
    Option (Except CmdError (CmdResult α) × Registry α) :=
  match parseCommandCursorOptions req with
  | Except.error e => some (Except.error e, reg)
  | Except.ok batchSize =>
    if dbExists = false then
      some (Except.error (CmdError.namespaceNotFound "no database"), reg)
    else if collExists = false then
      some (Except.error (CmdError.namespaceNotFound "no collection"), reg)
    else
      match Exec.getBatch objsize batchSize maxBytes
          ⟨ExecState.usable, ⟨none, docs⟩⟩ with
      | none => none
      | some (firstBatch, e1) =>
        if e1.isEOF then
          some (Except.ok ⟨firstBatch, 0⟩, reg)
        else
          match e1.saveState with
          | none => none
          | some e2 =>
            match e2.detachFromOperationContext with
            | none => none
            | some e3 =>
              match reg.registerCursor e3 with
              | none => none
              | some (cursorId, reg') =>
                some (Except.ok ⟨firstBatch, cursorId⟩, reg')

lemma le_foldr_max : ∀ (l : List Nat), ∀ x ∈ l, x ≤ l.foldr max 0 := by
  intro l
  induction l with
  | nil => intro x hx; simp at hx
  | cons a tl ih =>
    intro x hx
    rcases List.mem_cons.mp hx with hx | hx
    · subst hx
      exact le_max_left _ _
    · exact le_trans (ih x hx) (le_max_right _ _)

lemma lookupEntry_eq_none {l : List (Nat × CursorEntry α)} {id : Nat}
    (h : ∀ p ∈ l, p.1 ≠ id) : lookupEntry l id = none := by
  induction l with
  | nil => rfl
  | cons hd tl ih =>
    have hhd : hd.1 ≠ id := h hd (List.mem_cons_self hd tl)
    cases hd with
    | mk k e =>
      simp only [lookupEntry, if_neg hhd]
      exact ih fun p hp => h p (List.mem_cons_of_mem _ hp)

lemma Registry.freshId_ne_zero (reg : Registry α) : reg.freshId ≠ 0 :=
  Nat.succ_ne_zero _

/-- The fresh id is not currently in use. -/
lemma Registry.lookup_freshId (reg : Registry α) :
    reg.lookup reg.freshId = none := by
  apply lookupEntry_eq_none
  intro p hp
  have : p.1 ≤ (reg.entries.map Prod.fst).foldr max 0 :=
    le_foldr_max _ p.1 (List.mem_map_of_mem Prod.fst hp)
  unfold Registry.freshId
  omega

/-- Evaluation of the run when the first batch exhausts the pipeline. -/
lemma run_eq_eof (objsize : α → Nat) (maxBytes bs : Nat) (req : BatchSizeReq)
    (docs : List α) (reg : Registry α)
    (hbs : parseCommandCursorOptions req = Except.ok bs)
    (heof : (assembleBatch objsize bs maxBytes ⟨none, docs⟩).2.isEOF = true) :
    listIndexesRun objsize maxBytes true true req docs reg =
      some (Except.ok ⟨(assembleBatch objsize bs maxBytes ⟨none, docs⟩).1, 0⟩,
        reg) := by
  simp [listIndexesRun, hbs, Exec.getBatch, Exec.isEOF, heof]

/-- Evaluation of the run when records remain after the first batch: the
executor is saved, detached and registered under the fresh id. -/
lemma run_eq_not_eof (objsize : α → Nat) (maxBytes bs : Nat)
    (req : BatchSizeReq) (docs : List α) (reg : Registry α)
    (hbs : parseCommandCursorOptions req = Except.ok bs)
    (heof : (assembleBatch objsize bs maxBytes ⟨none, docs⟩).2.isEOF = false) :
    listIndexesRun objsize maxBytes true true req docs reg =
      some (Except.ok ⟨(assembleBatch objsize bs maxBytes ⟨none, docs⟩).1,
          reg.freshId⟩,
        ⟨(reg.freshId, ⟨⟨ExecState.detached,
          (assembleBatch objsize bs maxBytes ⟨none, docs⟩).2⟩, false⟩) ::
          reg.entries⟩) := by
  simp [listIndexesRun, hbs, Exec.getBatch, Exec.isEOF, heof, Exec.saveState,
    Exec.detachFromOperationContext, Registry.registerCursor]

/-- C4: with an existing database and collection and well-formed cursor
options, the run reports cursor id 0 exactly when the pipeline is exhausted
after the first batch; otherwise it registers the pipeline and reports the
fresh nonzero id assigned by registration (an id not previously in use). -/
theorem run_cursorId_zero_iff_exhausted (objsize : α → Nat)
    (maxBytes bs : Nat) (req : BatchSizeReq) (docs : List α) (reg : Registry α)
    (hbs : parseCommandCursorOptions req = Except.ok bs) :
    ((assembleBatch objsize bs maxBytes ⟨none, docs⟩).2.isEOF = true →
      listIndexesRun objsize maxBytes true true req docs reg =
        some (Except.ok
          ⟨(assembleBatch objsize bs maxBytes ⟨none, docs⟩).1, 0⟩, reg)) ∧
    ((assembleBatch objsize bs maxBytes ⟨none, docs⟩).2.isEOF = false →
      listIndexesRun objsize maxBytes true true req docs reg =
        some (Except.ok ⟨(assembleBatch objsize bs maxBytes ⟨none, docs⟩).1,
            reg.freshId⟩,
          ⟨(reg.freshId, ⟨⟨ExecState.detached,
            (assembleBatch objsize bs maxBytes ⟨none, docs⟩).2⟩, false⟩) ::
            reg.entries⟩) ∧
      reg.freshId ≠ 0 ∧ reg.lookup reg.freshId = none) :=
  ⟨fun heof => run_eq_eof objsize maxBytes bs req docs reg hbs heof,
    fun heof => ⟨run_eq_not_eof objsize maxBytes bs req docs reg hbs heof,
      reg.freshId_ne_zero, reg.lookup_freshId⟩⟩

/-- Witness for C4: two records of sizes 1 and 2 against byte budget 1 leave
the pipeline non-exhausted, so a nonzero cursor id is returned and the
remainder is parked. -/
theorem run_cursorId_zero_iff_exhausted_witness :
    listIndexesRun (fun n : Nat => n) 1 true true (BatchSizeReq.given 3)
        [1, 2] ⟨[]⟩ =
      some (Except.ok ⟨[1], 1⟩,
        ⟨[(1, ⟨⟨ExecState.detached, ⟨some 2, []⟩⟩, false⟩)]⟩) ∧
    (1 : Nat) ≠ 0 :=
  have h := run_cursorId_zero_iff_exhausted (fun n : Nat => n) 1 3
    (BatchSizeReq.given 3) [1, 2] ⟨[]⟩ rfl
  ⟨(h.2 (by decide)).1, (h.2 (by decide)).2.1⟩

/-- Every parked cursor holds a suspended-detached executor. -/
def Registry.allDetached (reg : Registry α) : Prop :=
  ∀ p ∈ reg.entries, p.2.exec.state = ExecState.detached

/-- C5: the run never trips the executor state machine (it always produces an
outcome, i.e. `saveState` then `detachFromOperationContext` precede
`registerCursor` on the single registration path), and every entry the
resulting registry holds is suspended-detached — so `registerCursor`'s
precondition holds at every registration. -/
theorem run_registers_only_detached (objsize : α → Nat) (maxBytes : Nat)
    (dbExists collExists : Bool) (req : BatchSizeReq) (docs : List α)
    (reg : Registry α) (hreg : reg.allDetached) :
    ∃ out reg',
      listIndexesRun objsize maxBytes dbExists collExists req docs reg =
        some (out, reg') ∧ Registry.allDetached reg' := by
  rcases hparse : parseCommandCursorOptions req with e | bs
  · exact ⟨Except.error e, reg, by simp [listIndexesRun, hparse], hreg⟩
  · cases hdb : dbExists with
    | false =>
      refine ⟨Except.error (CmdError.namespaceNotFound "no database"), reg,
        ?_, hreg⟩
      simp [listIndexesRun, hparse]
    | true =>
      cases hcoll : collExists with
      | false =>
        refine ⟨Except.error (CmdError.namespaceNotFound "no collection"),
          reg, ?_, hreg⟩
        simp [listIndexesRun, hparse]
      | true =>
        cases heof : (assembleBatch objsize bs maxBytes ⟨none, docs⟩).2.isEOF
        with
        | true =>
          exact ⟨_, reg, run_eq_eof objsize maxBytes bs req docs reg hparse
            heof, hreg⟩
        | false =>
          refine ⟨_, _, run_eq_not_eof objsize maxBytes bs req docs reg hparse
            heof, ?_⟩
          intro p hp
          rcases List.mem_cons.mp hp with hp | hp
          · subst hp
            rfl
          · exact hreg p hp

/-- Witness for C5 on an empty registry and a two-record pipeline that leaves
a remainder to park. -/
theorem run_registers_only_detached_witness :
    Registry.allDetached (⟨[]⟩ : Registry Nat) ∧
    ∃ out reg',
      listIndexesRun (fun n : Nat => n) 1 true true (BatchSizeReq.given 3)
        [1, 2] ⟨[]⟩ = some (out, reg') ∧ Registry.allDetached reg' :=
  ⟨fun p hp => absurd hp (List.not_mem_nil p),
    run_registers_only_detached (fun n : Nat => n) 1 true true
      (BatchSizeReq.given 3) [1, 2] ⟨[]⟩
      (fun p hp => absurd hp (List.not_mem_nil p))⟩

/-- C6: five records of 40 bytes each, unbounded item count (no batchSize in
the request, so the default of 2^63-1 applies) and byte budget 100: the first
batch is exactly the first two records (80 bytes, a third would exceed 100),
the returned cursor id is the nonzero 1, and the parked pipeline still holds
the remaining three records, the redelivered third record first. -/
theorem run_scenario_five_forty :
    listIndexesRun (fun _ : Nat => 40) 100 true true BatchSizeReq.unspecified
        [1, 2, 3, 4, 5] ⟨[]⟩ =
      some (Except.ok ⟨[1, 2], 1⟩,
        ⟨[(1, ⟨⟨ExecState.detached, ⟨some 3, [4, 5]⟩⟩, false⟩)]⟩) ∧
    (1 : Nat) ≠ 0 ∧
    (Pipeline.mk (some 3) [4, 5] : Pipeline Nat).contents = [3, 4, 5] :=
  ⟨rfl, by decide, rfl⟩

/-- C8: if the database or the collection is absent, the run reports
NamespaceNotFound as an ordinary terminal command failure: no batch is
produced, the registry is untouched (no cursor created), and nothing is
retried. -/
theorem run_namespaceNotFound (objsize : α → Nat) (maxBytes bs : Nat)
    (dbExists collExists : Bool) (req : BatchSizeReq) (docs : List α)
    (reg : Registry α) (hbs : parseCommandCursorOptions req = Except.ok bs)
    (h : dbExists = false ∨ collExists = false) :
    ∃ msg, listIndexesRun objsize maxBytes dbExists collExists req docs reg =
      some (Except.error (CmdError.namespaceNotFound msg), reg) := by
  cases hdb : dbExists with
  | false =>
    exact ⟨"no database", by simp [listIndexesRun, hbs]⟩
  | true =>
    have hcoll : collExists = false := by
      rcases h with h | h
      · rw [hdb] at h
        exact absurd h (by simp)
      · exact h
    exact ⟨"no collection", by simp [listIndexesRun, hbs, hcoll]⟩

/-- Witness for C8: absent database. -/
theorem run_namespaceNotFound_witness :
    parseCommandCursorOptions (BatchSizeReq.given 2) = Except.ok 2 ∧
    ((false : Bool) = false ∨ (true : Bool) = false) ∧
    ∃ msg, listIndexesRun (fun n : Nat => n) 10 false true
        (BatchSizeReq.given 2) [1] ⟨[]⟩ =
      some (Except.error (CmdError.namespaceNotFound msg), ⟨[]⟩) :=
  ⟨rfl, Or.inl rfl,
    run_namespaceNotFound (fun n : Nat => n) 10 2 false true
      (BatchSizeReq.given 2) [1] ⟨[]⟩ rfl (Or.inl rfl)⟩

/-- C9: an absent batchSize parses to the maximum signed 64-bit integer, so
the first batch is bounded only by the byte budget; and whatever batch size
is successfully parsed, the first batch never holds more documents. -/
theorem run_batch_at_most_batchSize (objsize : α → Nat) (maxBytes : Nat) :
    parseCommandCursorOptions BatchSizeReq.unspecified =
      Except.ok defaultBatchSize ∧
    defaultBatchSize = 2 ^ 63 - 1 ∧
    ∀ (bs : Nat) (req : BatchSizeReq) (dbExists collExists : Bool)
      (docs : List α) (reg reg' : Registry α) (res : CmdResult α),
      parseCommandCursorOptions req = Except.ok bs →
      listIndexesRun objsize maxBytes dbExists collExists req docs reg =
        some (Except.ok res, reg') →
      res.firstBatch.length ≤ bs := by
  refine ⟨rfl, rfl, ?_⟩
  intro bs req dbExists collExists docs reg reg' res hbs hrun
  obtain ⟨fb, cid⟩ := res
  cases hdb : dbExists with
  | false =>
    rw [hdb] at hrun
    simp [listIndexesRun, hbs] at hrun
  | true =>
    cases hcoll : collExists with
    | false =>
      rw [hdb, hcoll] at hrun
      simp [listIndexesRun, hbs] at hrun
    | true =>
      rw [hdb, hcoll] at hrun
      cases heof : (assembleBatch objsize bs maxBytes ⟨none, docs⟩).2.isEOF
      with
      | true =>
        rw [run_eq_eof objsize maxBytes bs req docs reg hbs heof] at hrun
        simp only [Option.some.injEq, Prod.mk.injEq, Except.ok.injEq,
          CmdResult.mk.injEq] at hrun
        obtain ⟨⟨h1, h2⟩, h3⟩ := hrun
        subst h1
        exact assembleBatch_count objsize bs maxBytes ⟨none, docs⟩
      | false =>
        rw [run_eq_not_eof objsize maxBytes bs req docs reg hbs heof] at hrun
        simp only [Option.some.injEq, Prod.mk.injEq, Except.ok.injEq,
          CmdResult.mk.injEq] at hrun
        obtain ⟨⟨h1, h2⟩, h3⟩ := hrun
        subst h1
        exact assembleBatch_count objsize bs maxBytes ⟨none, docs⟩

/-- Witness for C9: batch size 2, one record, fully delivered. -/
theorem run_batch_at_most_batchSize_witness :
    parseCommandCursorOptions (BatchSizeReq.given 2) = Except.ok 2 ∧
    listIndexesRun (fun n : Nat => n) 100 true true (BatchSizeReq.given 2) [7]
        ⟨[]⟩ = some (Except.ok ⟨[7], 0⟩, ⟨[]⟩) ∧
    (CmdResult.mk [7] 0 : CmdResult Nat).firstBatch.length ≤ 2 :=
  ⟨rfl, rfl,
    (run_batch_at_most_batchSize (fun n : Nat => n) 100).2.2 2
      (BatchSizeReq.given 2) true true [7] ⟨[]⟩ ⟨[]⟩ ⟨[7], 0⟩ rfl rfl⟩

/-- Outcome of one attempt of the transactional metadata read: success with
the full result list, a transient write-conflict signal (with whatever
partial rows the attempt had produced before conflicting), or a non-conflict
error. -/
inductive ReadOutcome (ε σ : Type) where
  | ok (res : List σ)
  | conflict (left : List σ)
  | err (e : ε)
deriving DecidableEq

/-- Modelled from the spec: the MONGO_WRITE_CONFLICT_RETRY_LOOP_BEGIN/END
pair wrapping `getAllIndexes`/`getIndexSpec` (write_conflict_exception.h is
external to this snapshot; spec 4.1).  Attempt `i` first discards the
accumulator (`indexNames.clear()` at list_indexes.cpp:150) and re-runs the
read; a conflict retries with the next attempt, anything else stops.  The
loop is unbounded in the source; `fuel` only bounds this model, and the
returned number is how many times the read was invoked. -/
def writeConflictRetryLoop {ε σ : Type} (f : Nat → ReadOutcome ε σ) :
    Nat → Nat → List σ → Option (Except ε (List σ) × Nat)
  | 0, _, _ => none
  | fuel + 1, i, _acc =>
    match f i with
    | ReadOutcome.ok res => some (Except.ok res, i + 1)
    | ReadOutcome.err e => some (Except.error e, i + 1)
    | ReadOutcome.conflict left => writeConflictRetryLoop f fuel (i + 1) left

lemma writeConflictRetryLoop_succ {ε σ : Type} (f : Nat → ReadOutcome ε σ)
    (n i : Nat) (acc : List σ) :
    writeConflictRetryLoop f (n + 1) i acc =
      match f i with
      | ReadOutcome.ok res => some (Except.ok res, i + 1)
      | ReadOutcome.err e => some (Except.error e, i + 1)
      | ReadOutcome.conflict left =>
          writeConflictRetryLoop f n (i + 1) left := rfl

lemma writeConflictRetryLoop_ok {ε σ : Type} (f : Nat → ReadOutcome ε σ) :
    ∀ (K i : Nat) (acc res : List σ),
      (∀ j, j < K → ∃ l, f (i + j) = ReadOutcome.conflict l) →
      f (i + K) = ReadOutcome.ok res →
      writeConflictRetryLoop f (K + 1) i acc =
        some (Except.ok res, i + K + 1) := by
  intro K
  induction K with
  | zero =>
    intro i acc res _ hK
    rw [writeConflictRetryLoop_succ, show f i = ReadOutcome.ok res from hK]
  | succ K ih =>
    intro i acc res hconf hK
    obtain ⟨l, hl⟩ := hconf 0 (Nat.succ_pos K)
    rw [writeConflictRetryLoop_succ, show f i = ReadOutcome.conflict l from hl]
    have h2 : f (i + 1 + K) = ReadOutcome.ok res := by
      rw [show i + 1 + K = i + (K + 1) by omega]
      exact hK
    have h3 : ∀ j, j < K → ∃ l', f (i + 1 + j) = ReadOutcome.conflict l' := by
      intro j hj
      obtain ⟨l', hl'⟩ := hconf (j + 1) (by omega)
      exact ⟨l', by rw [show i + 1 + j = i + (j + 1) by omega]; exact hl'⟩
    rw [show i + (K + 1) + 1 = i + 1 + K + 1 by omega]
    exact ih (i + 1) l res h3 h2

lemma writeConflictRetryLoop_err {ε σ : Type} (f : Nat → ReadOutcome ε σ) :
    ∀ (K i : Nat) (acc : List σ) (e : ε),
      (∀ j, j < K → ∃ l, f (i + j) = ReadOutcome.conflict l) →
      f (i + K) = ReadOutcome.err e →
      writeConflictRetryLoop f (K + 1) i acc =
        some (Except.error e, i + K + 1) := by
  intro K
  induction K with
  | zero =>
    intro i acc e _ hK
    rw [writeConflictRetryLoop_succ, show f i = ReadOutcome.err e from hK]
  | succ K ih =>
    intro i acc e hconf hK
    obtain ⟨l, hl⟩ := hconf 0 (Nat.succ_pos K)
    rw [writeConflictRetryLoop_succ, show f i = ReadOutcome.conflict l from hl]
    have h2 : f (i + 1 + K) = ReadOutcome.err e := by
      rw [show i + 1 + K = i + (K + 1) by omega]
      exact hK
    have h3 : ∀ j, j < K → ∃ l', f (i + 1 + j) = ReadOutcome.conflict l' := by
      intro j hj
      obtain ⟨l', hl'⟩ := hconf (j + 1) (by omega)
      exact ⟨l', by rw [show i + 1 + j = i + (j + 1) by omega]; exact hl'⟩
    rw [show i + (K + 1) + 1 = i + 1 + K + 1 by omega]
    exact ih (i + 1) l e h3 h2

/-- C3: if the read conflicts on exactly the first K attempts, the retry loop
invokes the read exactly K+1 times; when attempt K succeeds it returns
exactly that attempt's fully-materialized result — whatever partial rows
earlier conflicting attempts produced (and whatever the accumulator held
going in) are discarded, so no partial result is visible — and when attempt K
fails with a non-conflict error, that error is propagated unchanged. -/
theorem retryReader_transparent (ε σ : Type) (f : Nat → ReadOutcome ε σ)
    (K : Nat) (hconf : ∀ j, j < K → ∃ l, f j = ReadOutcome.conflict l) :
    (∀ (res acc : List σ), f K = ReadOutcome.ok res →
      writeConflictRetryLoop f (K + 1) 0 acc =
        some (Except.ok res, K + 1)) ∧
    (∀ (e : ε) (acc : List σ), f K = ReadOutcome.err e →
      writeConflictRetryLoop f (K + 1) 0 acc =
        some (Except.error e, K + 1)) := by
  constructor
  · intro res acc hK
    have h' := writeConflictRetryLoop_ok f K 0 acc res
      (by simpa using hconf) (by simpa using hK)
    simpa using h'
  · intro e acc hK
    have h' := writeConflictRetryLoop_err f K 0 acc e
      (by simpa using hconf) (by simpa using hK)
    simpa using h'

/-- Witness for C3: one conflicting attempt (leaving partial row 9 behind),
then success with the two-row result; two invocations, result uncontaminated
by the partial row. -/
theorem retryReader_transparent_witness :
    (∀ j, j < 1 →
      ∃ l, (fun i : Nat =>
          if i = 0 then (ReadOutcome.conflict [9] : ReadOutcome String Nat)
          else ReadOutcome.ok [4, 5]) j = ReadOutcome.conflict l) ∧
    writeConflictRetryLoop
        (fun i : Nat =>
          if i = 0 then (ReadOutcome.conflict [9] : ReadOutcome String Nat)
          else ReadOutcome.ok [4, 5]) 2 0 [] =
      some (Except.ok [4, 5], 2) :=
  have hconf : ∀ j, j < 1 →
      ∃ l, (fun i : Nat =>
          if i = 0 then (ReadOutcome.conflict [9] : ReadOutcome String Nat)
          else ReadOutcome.ok [4, 5]) j = ReadOutcome.conflict l :=
    fun j hj => by
      have hj0 : j = 0 := by omega
      subst hj0
      exact ⟨[9], rfl⟩
  ⟨hconf,
    (retryReader_transparent String Nat
      (fun i : Nat =>
        if i = 0 then (ReadOutcome.conflict [9] : ReadOutcome String Nat)
        else ReadOutcome.ok [4, 5]) 1 hconf).1 [4, 5] [] rfl⟩

/-- Recoverable registry-boundary errors (spec 4.5, 7). -/
inductive RegErr where
  | notFound
  | cursorInUse
deriving DecidableEq

/-- How a pinned cursor is released (spec 4.5: exhausted and kill destroy the
entry, otherwise it is re-parked). -/
inductive UnpinOutcome where
  | exhausted
  | killed
  | parked
deriving DecidableEq

/-- Set the pin flag of the entry (or entries) stored under `id`. -/
def setPinned (l : List (Nat × CursorEntry α)) (id : Nat) (b : Bool) :
    List (Nat × CursorEntry α) :=
  l.map fun p => if p.1 = id then (p.1, { p.2 with pinned := b }) else p

/-- Remove every entry stored under `id`. -/
def removeEntry (l : List (Nat × CursorEntry α)) (id : Nat) :
    List (Nat × CursorEntry α) :=
  l.filter fun p => p.1 != id

/-- Modelled from the spec: `pin(id)` (spec 4.5) — NotFound if absent,
CursorInUse if already pinned, otherwise mark the entry in use. -/
def Registry.pin (reg : Registry α) (id : Nat) : Except RegErr (Registry α) :=
  match reg.lookup id with
  | none => Except.error RegErr.notFound
  | some e =>
    if e.pinned then Except.error RegErr.cursorInUse
    else Except.ok ⟨setPinned reg.entries id true⟩

/-- Modelled from the spec: `unpin(id, outcome)` (spec 4.5) — an exhausted or
killed cursor is removed and destroyed, otherwise the pipeline is re-parked
and the pin flag cleared. -/
def Registry.unpin (reg : Registry α) (id : Nat) (outcome : UnpinOutcome) :
    Registry α :=
  match outcome with
  | UnpinOutcome.parked => ⟨setPinned reg.entries id false⟩
  | _ => ⟨removeEntry reg.entries id⟩

/-- Modelled from the spec: `kill(id)` (spec 4.5) — NotFound if absent,
CursorInUse if currently pinned, otherwise the entry is removed and
destroyed. -/
def Registry.kill (reg : Registry α) (id : Nat) : Except RegErr (Registry α) :=
  match reg.lookup id with
  | none => Except.error RegErr.notFound
  | some e =>
    if e.pinned then Except.error RegErr.cursorInUse
    else Except.ok ⟨removeEntry reg.entries id⟩

lemma lookupEntry_setPinned (l : List (Nat × CursorEntry α)) (id : Nat)
    (b : Bool) :
    lookupEntry (setPinned l id b) id =
      (lookupEntry l id).map fun e => { e with pinned := b } := by
  induction l with
  | nil => rfl
  | cons hd tl ih =>
    cases hd with
    | mk k e =>
      by_cases hk : k = id
      · subst hk
        have hhead : (if (k, e).1 = k
              then ((k, e).1, { (k, e).2 with pinned := b }) else (k, e)) =
            (k, { e with pinned := b }) := by
          simp
        simp only [setPinned, List.map_cons, hhead]
        simp [lookupEntry]
      · have hhead : (if (k, e).1 = id
              then ((k, e).1, { (k, e).2 with pinned := b }) else (k, e)) =
            (k, e) := by
          simp [hk]
        simp only [setPinned, List.map_cons, hhead] at ih ⊢
        simp [lookupEntry, hk, ih]

lemma lookupEntry_removeEntry (l : List (Nat × CursorEntry α)) (id : Nat) :
    lookupEntry (removeEntry l id) id = none := by
  induction l with
  | nil => rfl
  | cons hd tl ih =>
    cases hd with
    | mk k e =>
      by_cases hk : k = id
      · simp only [removeEntry, List.filter_cons] at ih ⊢
        simp [hk, ih]
      · simp only [removeEntry, List.filter_cons] at ih ⊢
        simp [hk, lookupEntry, ih]

/-- C7: killing a pinned cursor fails with CursorInUse (and, the operations
being pure, the registry — including the entry — is untouched); once the
owner unpins (re-parking it), kill on the same id succeeds and removes the
entry, after which pin on that id fails with NotFound. -/
theorem registry_kill_pinned_protocol (reg : Registry α) (id : Nat)
    (e : CursorEntry α) (h1 : reg.lookup id = some e)
    (h2 : e.pinned = true) :
    reg.kill id = Except.error RegErr.cursorInUse ∧
    (reg.unpin id UnpinOutcome.parked).kill id =
      Except.ok ⟨removeEntry (setPinned reg.entries id false) id⟩ ∧
    Registry.lookup ⟨removeEntry (setPinned reg.entries id false) id⟩ id =
      none ∧
    Registry.pin ⟨removeEntry (setPinned reg.entries id false) id⟩ id =
      Except.error RegErr.notFound := by
  have hl : Registry.lookup (⟨setPinned reg.entries id false⟩ : Registry α)
      id = some { e with pinned := false } := by
    show lookupEntry (setPinned reg.entries id false) id = _
    rw [lookupEntry_setPinned]
    rw [show lookupEntry reg.entries id = some e from h1]
    rfl
  have hrm := lookupEntry_removeEntry (setPinned reg.entries id false) id
  refine ⟨?_, ?_, hrm, ?_⟩
  · simp [Registry.kill, h1, h2]
  · simp [Registry.unpin, Registry.kill, hl]
  · simp [Registry.pin, Registry.lookup, hrm]

/-- Witness for C7: a one-entry registry whose cursor 7 is pinned. -/
theorem registry_kill_pinned_protocol_witness :
    Registry.lookup
        (⟨[(7, ⟨⟨ExecState.detached, ⟨none, []⟩⟩, true⟩)]⟩ : Registry Nat) 7 =
      some ⟨⟨ExecState.detached, ⟨none, []⟩⟩, true⟩ ∧
    (⟨⟨ExecState.detached, ⟨none, []⟩⟩, true⟩ : CursorEntry Nat).pinned =
      true ∧
    (Registry.kill
        (⟨[(7, ⟨⟨ExecState.detached, ⟨none, []⟩⟩, true⟩)]⟩ : Registry Nat) 7 =
      Except.error RegErr.cursorInUse ∧
    Registry.kill
        (Registry.unpin
          (⟨[(7, ⟨⟨ExecState.detached, ⟨none, []⟩⟩, true⟩)]⟩ : Registry Nat)
          7 UnpinOutcome.parked) 7 = Except.ok ⟨[]⟩ ∧
    Registry.lookup (⟨[]⟩ : Registry Nat) 7 = none ∧
    Registry.pin (⟨[]⟩ : Registry Nat) 7 = Except.error RegErr.notFound) :=
  ⟨rfl, rfl,
    registry_kill_pinned_protocol
      (⟨[(7, ⟨⟨ExecState.detached, ⟨none, []⟩⟩, true⟩)]⟩ : Registry Nat) 7
      ⟨⟨ExecState.detached, ⟨none, []⟩⟩, true⟩ rfl rfl⟩

/-- Minimal BSON value model: the numeric kinds that
`BSONElement::numberDecimal` converts, plus representative non-numeric
kinds. -/
inductive BSONValue where
  | int32 (n : Int)
  | int64 (n : Int)
  | decimal (n : Int)
  | str (s : String)
  | boolean (b : Bool)
deriving DecidableEq

/-- `BSONElement::numberDecimal()` (bsonelement is external to this
snapshot): numeric values yield their numeric value, non-numeric values 0. -/
def numberDecimal : BSONValue → Int
  | BSONValue.int32 n => n
  | BSONValue.int64 n => n
  | BSONValue.decimal n => n
  | BSONValue.str _ => 0
  | BSONValue.boolean _ => 0

/-- A BSON document as its ordered field list. -/
abbrev BSONDoc := List (String × BSONValue)

/-- `IndexDescriptor::kIndexVersionFieldName` (value from index_descriptor.h,
external to this snapshot; the theorems only compare it for equality). -/
def kIndexVersionFieldName : String := "v"

/-- `FeatureCompatibilityVersion::kCollection`
(feature_compatibility_version.h, external to this snapshot). -/
def kCollection : String := "admin.system.version"

/-- `FeatureCompatibilityVersion::k32IncompatibleIndexName`
(feature_compatibility_version.h, external to this snapshot). -/
def k32IncompatibleIndexName : String := "incompatible_with_version_32"

/-- The rewrite at list_indexes.cpp:165-184: only for the 3.2-incompatible
index of the feature-compatibility-version collection, rebuild the spec field
by field in order, replacing the index-version field by its value as a
decimal and appending every other element unchanged; any other spec is left
untouched. -/
def transformIndexSpec (nss indexName : String) (spec : BSONDoc) : BSONDoc :=
  if nss = kCollection ∧ indexName = k32IncompatibleIndexName then
    spec.map fun elem =>
      if elem.1 = kIndexVersionFieldName then
        (kIndexVersionFieldName, BSONValue.decimal (numberDecimal elem.2))
      else elem
  else spec

/-- The loop at list_indexes.cpp:158-193: the documents loaded into the
pipeline are the catalog's index specs in catalog order, each passed through
`transformIndexSpec`. -/
def loadedDocs (nss : String) (catalog : List (String × BSONDoc)) :
    List BSONDoc :=
  catalog.map fun p => transformIndexSpec nss p.1 p.2

/-- C10: the document loaded into the pipeline for catalog position j is the
catalog's spec unchanged, unless it is the single 3.2-incompatible index on
the feature-compatibility-version collection; for that one index the loaded
document has the same number of fields in the same order, every field other
than the index-version field keeps its original name and value, and the
index-version field is rewritten to a decimal value. -/
theorem loaded_doc_transform (nss : String)
    (catalog : List (String × BSONDoc)) (j : Nat) (name : String)
    (spec : BSONDoc) (hj : catalog[j]? = some (name, spec)) :
    (¬(nss = kCollection ∧ name = k32IncompatibleIndexName) →
      (loadedDocs nss catalog)[j]? = some spec) ∧
    (nss = kCollection → name = k32IncompatibleIndexName →
      ∃ out, (loadedDocs nss catalog)[j]? = some out ∧
        out.length = spec.length ∧
        ∀ (i : Nat) (e : String × BSONValue), spec[i]? = some e →
          ((e.1 ≠ kIndexVersionFieldName → out[i]? = some e) ∧
            (e.1 = kIndexVersionFieldName →
              out[i]? = some (kIndexVersionFieldName,
                BSONValue.decimal (numberDecimal e.2))))) := by
  have hload : (loadedDocs nss catalog)[j]? =
      some (transformIndexSpec nss name spec) := by
    unfold loadedDocs
    rw [List.getElem?_map, hj]
    rfl
  constructor
  · intro hnot
    rw [hload]
    unfold transformIndexSpec
    rw [if_neg hnot]
  · intro h1 h2
    refine ⟨transformIndexSpec nss name spec, hload, ?_, ?_⟩
    · unfold transformIndexSpec
      rw [if_pos ⟨h1, h2⟩]
      simp
    · intro i e he
      unfold transformIndexSpec
      rw [if_pos ⟨h1, h2⟩]
      constructor
      · intro hne
        rw [List.getElem?_map, he]
        simp [hne]
      · intro heq
        rw [List.getElem?_map, he]
        simp [heq]

/-- Witness for C10: a catalog holding exactly the 3.2-incompatible index of
the feature-compatibility-version collection, whose spec has an int32 index
version 1 and a name field. -/
theorem loaded_doc_transform_witness :
    ([(k32IncompatibleIndexName,
        [(kIndexVersionFieldName, BSONValue.int32 1),
          ("name", BSONValue.str "x")])] : List (String × BSONDoc))[0]? =
      some (k32IncompatibleIndexName,
        [(kIndexVersionFieldName, BSONValue.int32 1),
          ("name", BSONValue.str "x")]) ∧
    ((¬(kCollection = kCollection ∧
        k32IncompatibleIndexName = k32IncompatibleIndexName) →
      (loadedDocs kCollection
        [(k32IncompatibleIndexName,
          [(kIndexVersionFieldName, BSONValue.int32 1),
            ("name", BSONValue.str "x")])])[0]? =
        some [(kIndexVersionFieldName, BSONValue.int32 1),
          ("name", BSONValue.str "x")]) ∧
    (kCollection = kCollection → k32IncompatibleIndexName =
        k32IncompatibleIndexName →
      ∃ out, (loadedDocs kCollection
          [(k32IncompatibleIndexName,
            [(kIndexVersionFieldName, BSONValue.int32 1),
              ("name", BSONValue.str "x")])])[0]? = some out ∧
        out.length = [(kIndexVersionFieldName, BSONValue.int32 1),
          ("name", BSONValue.str "x")].length ∧
        ∀ (i : Nat) (e : String × BSONValue),
          [(kIndexVersionFieldName, BSONValue.int32 1),
            ("name", BSONValue.str "x")][i]? = some e →
          ((e.1 ≠ kIndexVersionFieldName → out[i]? = some e) ∧
            (e.1 = kIndexVersionFieldName →
              out[i]? = some (kIndexVersionFieldName,
                BSONValue.decimal (numberDecimal e.2)))))) :=
  ⟨rfl,
    loaded_doc_transform kCollection
      [(k32IncompatibleIndexName,
        [(kIndexVersionFieldName, BSONValue.int32 1),
          ("name", BSONValue.str "x")])] 0 k32IncompatibleIndexName
      [(kIndexVersionFieldName, BSONValue.int32 1),
        ("name", BSONValue.str "x")] rfl⟩
